import Mathlib

/-!
Shallow embedding of `src/advanced-vector/vector.h`: the raw storage manager
`RawMemory<T>` and the dynamic array `Vector<T>`, modelled at the level of
element values.  Pointers become natural-number slot indices, the live range
`[0, size_)` of the buffer becomes a `List α`, move construction and move
assignment of a `T` value become value transfer, and copy construction becomes
value duplication.  Operations whose source can throw (element constructors)
also get a fallible variant that makes the throw point and the unwind
behaviour of the source explicit.
-/

namespace AdvancedVector

/-- State of a `RawMemory<T>` object: `buffer_` (a pointer, modelled as
`Option Nat`: `none` is `nullptr`, `some a` an address) and `capacity_`. -/
structure RawMemory where
  buffer : Option Nat
  capacity : Nat
deriving DecidableEq, Repr

/-- The state produced by `RawMemory()` (default member initializers
`buffer_ = nullptr`, `capacity_ = 0`). -/
def RawMemory.empty : RawMemory := ⟨none, 0⟩

/-- `RawMemory<T>::Swap(other)`: exchanges `buffer_` and `capacity_` between
the two objects.  Returns the pair (state of `*this` after, state of `other`
after). -/
def RawMemory.SwapRM (a b : RawMemory) : RawMemory × RawMemory :=
  (⟨b.buffer, b.capacity⟩, ⟨a.buffer, a.capacity⟩)

/-- `RawMemory(RawMemory&& other)`: member-initializes `buffer_ = nullptr`,
`capacity_ = 0`, then calls `Swap(other)`.  Returns (the constructed object,
the state of `other` afterwards). -/
def RawMemory.moveCtor (other : RawMemory) : RawMemory × RawMemory :=
  RawMemory.SwapRM ⟨none, 0⟩ other

/-- `RawMemory& operator=(RawMemory&& rhs)` for two distinct objects (the
source guards on `this != &rhs`; self-assignment is the identity): calls
`Swap(rhs)`.  Returns (the state of `*this` after, the state of `rhs`
after). -/
def RawMemory.moveAssign (a b : RawMemory) : RawMemory × RawMemory :=
  RawMemory.SwapRM a b

/-- State of a `Vector<T>` object at the level of element values: `elems` is
the list of live, constructed elements in slots `[0, size_)` of `data_`, and
`cap` is `data_.Capacity()`. -/
structure Vector (α : Type) where
  elems : List α
  cap : Nat
deriving DecidableEq, Repr

/-- `Vector<T>::Size()`. -/
def Vector.Size (v : Vector α) : Nat := v.elems.length

/-- `Vector<T>::Capacity()`. -/
def Vector.Capacity (v : Vector α) : Nat := v.cap

/-- The state produced by `Vector()` (defaulted: `data_` default-constructed
to capacity 0, `size_ = 0`). -/
def Vector.defaultInit (α : Type) : Vector α := ⟨[], 0⟩

/-- Class invariant of `Vector<T>`: the live count never exceeds the
capacity of the owned buffer. -/
def Vector.WF (v : Vector α) : Prop := v.elems.length ≤ v.cap

/-- `Vector<T>::Uninitialized_Move_Or_Copy_N(begin, size, new_begin)` in the
non-throwing case: relocates the `size` live elements, in order, into the new
buffer, either by `std::uninitialized_move_n` or by
`std::uninitialized_copy_n` depending on the type traits of `T`.  At the
level of element values both produce the same sequence of values in the
destination, so the relocated run equals the source run. -/
def Uninitialized_Move_Or_Copy_N (src : List α) : List α := src

/-- `Vector<T>::Reserve(new_capacity)`: returns immediately when
`new_capacity <= data_.Capacity()`; otherwise allocates a new buffer of
exactly `new_capacity` slots, relocates the `size_` live elements into it,
destroys the old ones and swaps the buffers. -/
def Vector.Reserve (v : Vector α) (new_capacity : Nat) : Vector α :=
  if new_capacity ≤ v.cap then v
  else { elems := Uninitialized_Move_Or_Copy_N v.elems, cap := new_capacity }

/-- `Vector<T>::Swap(other)`: `std::swap` of `data_` and of `size_`.
Returns (state of `*this` after, state of `other` after). -/
def Vector.SwapV (a b : Vector α) : Vector α × Vector α :=
  (⟨b.elems, b.cap⟩, ⟨a.elems, a.cap⟩)

/-- `Vector(Vector&& other)`: member-initializes `data_(0)` (a zero-capacity
buffer: `Allocate(0)` returns `nullptr`) and `size_(0)`, then `Swap(other)`.
Returns (the constructed vector, the state of `other` afterwards). -/
def Vector.moveCtor (other : Vector α) : Vector α × Vector α :=
  Vector.SwapV ⟨[], 0⟩ other

/-- `Vector<T>::Resize(new_size)`: calls `Reserve(new_size)`, then either
destroys the trailing `size_ - new_size` elements (`std::destroy_n`) or
value-constructs `new_size - size_` elements at the tail
(`std::uninitialized_value_construct_n`); finally sets `size_ = new_size`.
`d` is the value produced by value-construction of `T`. -/
def Vector.Resize (v : Vector α) (d : α) (new_size : Nat) : Vector α :=
  let w := v.Reserve new_size
  if new_size < w.elems.length then
    { elems := w.elems.take new_size, cap := w.cap }
  else
    { elems := w.elems ++ List.replicate (new_size - w.elems.length) d, cap := w.cap }

/-- `Vector<T>::PushBack(const T& value)` in the non-throwing case.  When
`size_ == Capacity()`: for an empty vector, `Reserve(1)` then
placement-construct the copy at slot 0; otherwise allocate a buffer of
`size_ * 2` slots, construct the copy of `value` at slot `size_` of the new
buffer first, relocate the old elements into slots `[0, size_)`, destroy the
old elements and swap buffers.  When `size_ < Capacity()`, construct the copy
directly at slot `size_`.  In every branch `++size_` follows. -/
def Vector.PushBack (v : Vector α) (value : α) : Vector α :=
  if v.elems.length = v.cap then
    if v.elems.length = 0 then
      let w := v.Reserve 1
      { elems := w.elems ++ [value], cap := w.cap }
    else
      { elems := Uninitialized_Move_Or_Copy_N v.elems ++ [value], cap := v.elems.length * 2 }
  else
    { elems := v.elems ++ [value], cap := v.cap }

/-- `Vector<T>::PushBack(T&& value)` in the non-throwing case: identical
control flow to the copying overload, with `T(std::move(value))` instead of
`T(value)`; at the level of element values the constructed element is the
same value. -/
def Vector.PushBackMove (v : Vector α) (value : α) : Vector α :=
  if v.elems.length = v.cap then
    if v.elems.length = 0 then
      let w := v.Reserve 1
      { elems := w.elems ++ [value], cap := w.cap }
    else
      { elems := Uninitialized_Move_Or_Copy_N v.elems ++ [value], cap := v.elems.length * 2 }
  else
    { elems := v.elems ++ [value], cap := v.cap }

/-- `Vector<T>::PopBack()`: when `size_ > 0`, `std::destroy_at` the element
in slot `size_ - 1` and decrement `size_`; otherwise do nothing. -/
def Vector.PopBack (v : Vector α) : Vector α :=
  if 0 < v.elems.length then { elems := v.elems.dropLast, cap := v.cap } else v

/-- Iterated `PushBack` of the value `x`, starting from a
default-constructed vector: the state after `n` sequential appends. -/
def pushN (x : α) : Nat → Vector α
  | 0 => Vector.defaultInit α
  | n + 1 => (pushN x n).PushBack x

/-- One step of the `std::move_backward` loop at the value level: slot `dst`
receives the value currently in slot `src` (moved-from objects are
immediately reassigned or destroyed by the source, so tracking the
transferred value suffices).  Out-of-range indices leave the buffer
unchanged. -/
def setFrom (l : List α) (dst src : Nat) : List α :=
  match l[src]? with
  | some a => l.set dst a
  | none => l

/-- The loop of `std::move_backward(first, last, d_last)` specialised to the
call shape of `Vector<T>::Emplace`, where `d_last = last + 1`: the loop runs
`last - first` times, each iteration assigning slot `j` from slot `j - 1`
for `j = last, last - 1, ...`.  `fuel` counts the remaining iterations. -/
def moveBackwardGo (l : List α) (last : Nat) : Nat → List α
  | 0 => l
  | k + 1 => moveBackwardGo (setFrom l last (last - 1)) (last - 1) k

/-- `std::move_backward(begin + first, begin + last, begin + last + 1)` at
the value level.  A valid call requires `first <= last` (`[first, last)` is
a range, possibly empty) and shifts that run one slot towards the back.
When `first` lies one past `last` the pair does not denote a range: the
loop `while (first != last) *(--d_last) = std::move(*(--last));` starts
with `first != last` true and walks `last` away from `first`, reading
before the start of the buffer — undefined behavior, modelled as `none`. -/
def moveBackwardByOne (l : List α) (first last : Nat) : Option (List α) :=
  if first ≤ last then some (moveBackwardGo l last (last - first)) else none

/-- `Vector<T>::Emplace(pos, args...)` in the non-throwing case, with the
position given as the index `pos_num = pos - begin()` (the source asserts
`begin() <= pos <= end()`, i.e. `pos_num <= size_`) and the element
constructed from `args...` given as its value `x`.

Branches, following the source exactly:
- `size_ == Capacity() && size_ == 0`: `Reserve(1)` then construct at
  `end()` (slot 0).
- `size_ == Capacity() && size_ > 0`: allocate `size_ * 2` slots, construct
  `x` at slot `pos_num` of the new buffer, relocate the old run `[0, pos_num)`
  to new slots `[0, pos_num)` and the old run `[pos_num, size_)` to new slots
  `[pos_num + 1, size_ + 1)`, destroy the old elements, swap buffers.
- `size_ < Capacity() && size_ > 0`: build `temp` from `args...`, move the
  last element into the raw slot `size_`, `std::move_backward` the run
  `[pos_num, size_ - 1)` one slot back, move-assign `temp` into slot
  `pos_num`.  For `pos_num == size_` (position `end()`) that
  `std::move_backward` call receives `first = begin() + size_` one past
  `last = end() - 1` — an invalid range, undefined behavior, so no defined
  result exists (`none`).
- `size_ < Capacity() && size_ == 0`: construct directly at slot `pos_num`
  (necessarily 0 under the assertion).

The result is `some` of the new state and the index of the returned
iterator `elem_pos - begin()`, or `none` when the call runs into the
undefined behavior above. -/
def Vector.Emplace (v : Vector α) (pos_num : Nat) (x : α) : Option (Vector α × Nat) :=
  if v.elems.length = v.cap then
    if v.elems.length = 0 then
      let w := v.Reserve 1
      some ({ elems := w.elems ++ [x], cap := w.cap }, 0)
    else
      let front := Uninitialized_Move_Or_Copy_N (v.elems.take pos_num)
      let back := Uninitialized_Move_Or_Copy_N (v.elems.drop pos_num)
      some ({ elems := front ++ x :: back, cap := v.elems.length * 2 }, pos_num)
  else
    if v.elems.length ≠ 0 then
      let temp := x
      let withLast := v.elems ++ [(v.elems.getLast?).getD temp]
      (moveBackwardByOne withLast pos_num (v.elems.length - 1)).map
        (fun shifted => ({ elems := shifted.set pos_num temp, cap := v.cap }, pos_num))
    else
      some ({ elems := [x], cap := v.cap }, pos_num)

/-- `std::uninitialized_copy_n(src + i0, n, dest)` with a fallible element
copy constructor: `throwsAt i` says whether the copy of source element `i`
throws.  On a throw, the call destroys every element it has constructed so
far and rethrows; `Except.error k` records that the throw happened after the
call had constructed (and then destroyed) `k` elements.  On success the
constructed run equals the source run at the level of values. -/
def uninitialized_copy_n (throwsAt : Nat → Bool) : Nat → List α → Except Nat (List α)
  | _, [] => .ok []
  | i, a :: rest =>
    if throwsAt i then .error 0
    else
      match uninitialized_copy_n throwsAt (i + 1) rest with
      | .error k => .error (k + 1)
      | .ok l => .ok (a :: l)

/-- `Vector(const Vector& other)` with a fallible element copy constructor:
allocates `other.size_` slots and `std::uninitialized_copy_n`-copies the
elements.  On a throw the partially constructed elements have already been
destroyed by `uninitialized_copy_n` and the freshly allocated buffer is
released by the `RawMemory` destructor, so no vector is produced (`none`). -/
def Vector.copyCtorE (throwsAt : Nat → Bool) (other : Vector α) : Option (Vector α) :=
  match uninitialized_copy_n throwsAt 0 other.elems with
  | .error _ => none
  | .ok l => some { elems := l, cap := other.Size }

/-- The element-wise loop of the in-place branch of
`Vector<T>::operator=(const Vector&)`: for each `i < size_`, if
`i < rhs.Size()` then `data_[i] = rhs.data_[i]` (a copy assignment, which
throws when `thAssign i` holds and then leaves the element with its previous
value), else `data_[i].~T()`.  The arguments are the live suffixes of the
destination and the source from index `i` on; the result is the live suffix
after the loop, and `Except.error` carries the live suffix at the moment the
exception propagates (`size_` has not been updated yet). -/
def assignOrDestroyLoop (thAssign : Nat → Bool) : Nat → List α → List α → Except (List α) (List α)
  | _, [], _ => .ok []
  | _, _ :: _, [] => .ok []
  | i, d :: ds, s :: ss =>
    if thAssign i then .error (d :: ds)
    else
      match assignOrDestroyLoop thAssign (i + 1) ds ss with
      | .error l => .error (s :: l)
      | .ok l => .ok (s :: l)

/-- `Vector<T>::operator=(const Vector& rhs)` for distinct objects (the
source guards on `this != &rhs`), with fallible element copies: `thCtor i`
says whether copy-constructing source element `i` throws, `thAssign i`
whether copy-assigning it throws.  `Except.ok` carries the state after a
successful assignment; `Except.error` carries the observable state of
`*this` at the moment the exception propagates out.

Branches, following the source exactly:
- `rhs.Size() > data_.Capacity()`: copy-and-swap.  `Vector rhs_copy(rhs)`
  may throw, in which case `*this` was never touched; otherwise `Swap`
  installs the copy and the old elements die with the temporary.
- otherwise: assign over the overlapping run and destroy any excess
  (`assignOrDestroyLoop`), then, when `rhs.Size() > size_`,
  `std::uninitialized_copy_n` the remaining source elements into the tail;
  a throw there destroys only the elements that call constructed, leaving
  the assigned run live with the old `size_`.  On success `size_` becomes
  `rhs.Size()`. -/
def Vector.opAssignE (thCtor thAssign : Nat → Bool) (v rhs : Vector α) :
    Except (Vector α) (Vector α) :=
  if rhs.Size > v.cap then
    match Vector.copyCtorE thCtor rhs with
    | none => .error v
    | some c => .ok c
  else
    match assignOrDestroyLoop thAssign 0 v.elems rhs.elems with
    | .error l => .error { elems := l, cap := v.cap }
    | .ok l =>
      if rhs.Size > v.elems.length then
        match uninitialized_copy_n thCtor v.elems.length (rhs.elems.drop v.elems.length) with
        | .error _ => .error { elems := l, cap := v.cap }
        | .ok tail => .ok { elems := l ++ tail, cap := v.cap }
      else .ok { elems := l, cap := v.cap }

/-- Unwind record of a growth step whose element construction threw:
`state` is the vector as observed through the original buffer when the
exception propagates, `constructedInNew` counts the `T` objects that were
constructed into the new buffer before the throw, and `destroyedInNew`
counts how many of those were destroyed before the new buffer was
released. -/
structure GrowThrow (α : Type) where
  state : Vector α
  constructedInNew : Nat
  destroyedInNew : Nat
deriving DecidableEq, Repr

/-- The growth path of `Vector<T>::PushBack(const T& value)` (the branch
`size_ == Capacity() && size_ > 0`) for a `T` whose relocation uses
`std::uninitialized_copy_n` (move construction may throw and `T` is copy
constructible), with fallible copies.  `newElemThrows` models the initial
`new (new_data.GetAddress() + size_) T(value)`; `throwsAt i` models the
relocation copy of old element `i`.  The unwind follows the source: a throw
in the initial placement-new happens with nothing yet constructed in the new
buffer; a throw inside the relocation destroys only the `k` elements that
`uninitialized_copy_n` itself constructed — the element already sitting in
slot `size_` of the new buffer is not destroyed — and then the local
`RawMemory` destructor releases the raw block.  The original buffer is not
touched until `std::destroy_n` after a fully successful relocation. -/
def Vector.pushBackGrowE (newElemThrows : Bool) (throwsAt : Nat → Bool)
    (v : Vector α) (value : α) : Except (GrowThrow α) (Vector α) :=
  if newElemThrows then .error ⟨v, 0, 0⟩
  else
    match uninitialized_copy_n throwsAt 0 v.elems with
    | .error k => .error ⟨v, k + 1, k⟩
    | .ok l => .ok { elems := l ++ [value], cap := v.elems.length * 2 }

/-! ### Helper lemmas shared by the claim theorems -/

theorem reserve_elems (v : Vector α) (c : Nat) : (v.Reserve c).elems = v.elems := by
  unfold Vector.Reserve Uninitialized_Move_Or_Copy_N
  split <;> rfl

theorem reserve_cap (v : Vector α) (c : Nat) :
    (v.Reserve c).cap = if c ≤ v.cap then v.cap else c := by
  unfold Vector.Reserve
  split <;> simp_all

theorem pushBack_elems (v : Vector α) (x : α) : (v.PushBack x).elems = v.elems ++ [x] := by
  unfold Vector.PushBack
  split
  · split
    · simp [reserve_elems]
    · simp [Uninitialized_Move_Or_Copy_N]
  · rfl

theorem pushBackMove_elems (v : Vector α) (x : α) :
    (v.PushBackMove x).elems = v.elems ++ [x] := by
  unfold Vector.PushBackMove
  split
  · split
    · simp [reserve_elems]
    · simp [Uninitialized_Move_Or_Copy_N]
  · rfl

theorem pushBack_cap (v : Vector α) (x : α) :
    (v.PushBack x).cap =
      if v.elems.length = v.cap then
        if v.elems.length = 0 then 1 else v.elems.length * 2
      else v.cap := by
  unfold Vector.PushBack
  split
  · split
    · rename_i h0 hz
      have hc : v.cap = 0 := by omega
      simp [reserve_cap, hc, h0, hz]
    · simp_all
  · simp_all

theorem uninitialized_copy_n_ok (throwsAt : Nat → Bool) :
    ∀ (i : Nat) (src l : List α),
      uninitialized_copy_n throwsAt i src = .ok l → l = src := by
  intro i src
  induction src generalizing i with
  | nil => intro l h; simpa [uninitialized_copy_n] using h.symm
  | cons a rest ih =>
    intro l h
    unfold uninitialized_copy_n at h
    split at h
    · exact absurd h (by simp)
    · revert h
      split
      · intro h; exact absurd h (by simp)
      · rename_i l₂ hl₂
        intro h
        cases h
        rw [ih _ _ hl₂]

/-! ### Claim theorems -/

/-- C3, counterexample to the claim as stated: move assignment between two
non-empty `RawMemory` objects does not reset the source to the empty state —
the source receives the destination's previous address and capacity. -/
theorem c3_moveAssign_not_reset :
    (RawMemory.moveAssign ⟨some 10, 2⟩ ⟨some 20, 3⟩).2 ≠ RawMemory.empty := by
  decide

/-- C3, amended: move construction transfers the source's address and
capacity to the new object and resets the source to the empty state (null
address, capacity 0); move assignment between distinct objects swaps the two
states, so the destination receives the source's address and capacity while
the source receives the destination's previous address and capacity (and so
ends empty only when the destination was empty). -/
theorem c3_move_semantics (a b : RawMemory) :
    RawMemory.moveCtor b = (b, RawMemory.empty)
    ∧ RawMemory.moveAssign a b = (b, a) := by
  cases a; cases b
  exact ⟨rfl, rfl⟩

/-- C6: move construction takes the source's elements (in order), size and
capacity, and leaves the source with size 0 and capacity 0. -/
theorem c6_move_construction (s : Vector α) :
    (Vector.moveCtor s).2.Size = 0 ∧ (Vector.moveCtor s).2.Capacity = 0
    ∧ (Vector.moveCtor s).1.elems = s.elems
    ∧ (Vector.moveCtor s).1.Size = s.Size
    ∧ (Vector.moveCtor s).1.Capacity = s.Capacity := by
  cases s
  simp [Vector.moveCtor, Vector.SwapV, Vector.Size, Vector.Capacity]

/-- C8: `Reserve` is the identity when the requested capacity does not
exceed the current one, sets the capacity to exactly the requested value
otherwise, and in both cases keeps the size and the live elements (values
and order) unchanged. -/
theorem c8_reserve_spec (v : Vector α) (c : Nat) :
    (c ≤ v.Capacity → v.Reserve c = v)
    ∧ (v.Capacity < c → (v.Reserve c).Capacity = c)
    ∧ (v.Reserve c).Size = v.Size
    ∧ (v.Reserve c).elems = v.elems := by
  refine ⟨fun h => ?_, fun h => ?_, ?_, reserve_elems v c⟩
  · cases v
    simp only [Vector.Reserve, Vector.Capacity] at *
    rw [if_pos h]
  · simp only [Vector.Capacity] at *
    rw [reserve_cap, if_neg (by omega)]
  · simp [Vector.Size, reserve_elems]

/-- Witness for C8 at concrete inputs: reserving below the capacity is the
identity, reserving above it yields exactly the requested capacity with the
elements intact. -/
theorem c8_reserve_spec_witness :
    Vector.Reserve (⟨[1, 2], 2⟩ : Vector Nat) 1 = ⟨[1, 2], 2⟩
    ∧ (Vector.Reserve (⟨[1, 2], 2⟩ : Vector Nat) 5).Capacity = 5
    ∧ (Vector.Reserve (⟨[1, 2], 2⟩ : Vector Nat) 5).elems = [1, 2] :=
  ⟨(c8_reserve_spec ⟨[1, 2], 2⟩ 1).1 (by decide),
   (c8_reserve_spec ⟨[1, 2], 2⟩ 5).2.1 (by decide),
   (c8_reserve_spec ⟨[1, 2], 2⟩ 5).2.2.2⟩

/-- C9: both `PushBack` overloads grow the size by exactly one and place the
appended value at index `oldSize`. -/
theorem c9_pushBack_appends (v : Vector α) (x : α) :
    (v.PushBack x).Size = v.Size + 1 ∧ ((v.PushBack x).elems)[v.Size]? = some x
    ∧ (v.PushBackMove x).Size = v.Size + 1
    ∧ ((v.PushBackMove x).elems)[v.Size]? = some x := by
  refine ⟨?_, ?_, ?_, ?_⟩ <;>
    simp [Vector.Size, pushBack_elems, pushBackMove_elems, List.getElem?_concat_length]

/-- C10: `PopBack` on a non-empty vector removes exactly the last live
element (size drops by one, capacity and the remaining elements unchanged);
on an empty vector it is a no-op leaving the whole state unchanged. -/
theorem c10_popBack_spec (v : Vector α) :
    (0 < v.Size → v.PopBack.Size = v.Size - 1 ∧ v.PopBack.elems = v.elems.dropLast
      ∧ v.PopBack.Capacity = v.Capacity)
    ∧ (v.Size = 0 → v.PopBack = v) := by
  constructor
  · intro h
    simp only [Vector.Size, Vector.Capacity] at *
    unfold Vector.PopBack
    rw [if_pos h]
    refine ⟨?_, rfl, rfl⟩
    simp [List.length_dropLast]
  · intro h
    simp only [Vector.Size] at h
    unfold Vector.PopBack
    rw [if_neg (by omega)]

/-- Witness for C10 at concrete inputs: popping `[4, 9]` gives `[4]` with
size 1 and the capacity kept, popping the empty vector changes nothing. -/
theorem c10_popBack_spec_witness :
    ((⟨[4, 9], 3⟩ : Vector Nat).PopBack.Size = 2 - 1
      ∧ (⟨[4, 9], 3⟩ : Vector Nat).PopBack.elems = [4]
      ∧ (⟨[4, 9], 3⟩ : Vector Nat).PopBack.Capacity = 3)
    ∧ (⟨[], 3⟩ : Vector Nat).PopBack = ⟨[], 3⟩ :=
  ⟨⟨((c10_popBack_spec ⟨[4, 9], 3⟩).1 (by decide)).1,
    ((c10_popBack_spec ⟨[4, 9], 3⟩).1 (by decide)).2.1,
    ((c10_popBack_spec ⟨[4, 9], 3⟩).1 (by decide)).2.2⟩,
   (c10_popBack_spec ⟨[], 3⟩).2 (by decide)⟩

/-- C7: `Resize(n)` sets the size to exactly `n`, keeps the values of the
elements at indices below `min oldSize n`, and fills indices
`[oldSize, n)` (when growing) with the value-constructed element `d`. -/
theorem c7_resize_spec (v : Vector α) (d : α) (n : Nat) :
    (v.Resize d n).Size = n
    ∧ (v.Resize d n).elems.take (min v.Size n) = v.elems.take (min v.Size n)
    ∧ (v.Resize d n).elems.drop v.Size = List.replicate (n - v.Size) d := by
  unfold Vector.Resize
  simp only [reserve_elems, Vector.Size]
  split
  · rename_i hlt
    refine ⟨?_, ?_, ?_⟩
    · simp [Vector.Size]
      omega
    · simp only [Nat.min_eq_right (le_of_lt hlt)] at *
      simp [List.take_take]
    · have h0 : n - v.elems.length = 0 := by omega
      rw [List.drop_eq_nil_of_le (by rw [List.length_take]; exact Nat.min_le_right _ _)]
      rw [h0]
      rfl
  · rename_i hge
    refine ⟨?_, ?_, ?_⟩
    · simp [Vector.Size]
      omega
    · rw [Nat.min_eq_left (by omega)]
      rw [List.take_append_of_le_length (le_refl _)]
    · rw [List.drop_left]

/-- C4: when the source is larger than the destination's capacity, copy
assignment goes through copy-and-swap and is strongly exception safe: either
it succeeds and the destination holds exactly the source's elements with the
source's size, or an element copy throws and the destination is observably
unchanged. -/
theorem c4_copy_assign_strong (thCtor thAssign : Nat → Bool) (v s : Vector α)
    (h : v.Capacity < s.Size) :
    (∃ r, v.opAssignE thCtor thAssign s = .ok r ∧ r.elems = s.elems ∧ r.Size = s.Size)
    ∨ v.opAssignE thCtor thAssign s = .error v := by
  simp only [Vector.Capacity, Vector.Size] at h
  unfold Vector.opAssignE
  rw [if_pos (by simpa [Vector.Size] using h)]
  unfold Vector.copyCtorE
  rcases hc : uninitialized_copy_n thCtor 0 s.elems with k | l
  · right
    rfl
  · left
    refine ⟨⟨l, s.Size⟩, rfl, uninitialized_copy_n_ok thCtor 0 s.elems l hc, ?_⟩
    simp [Vector.Size, uninitialized_copy_n_ok thCtor 0 s.elems l hc]

/-- Witness for C4 at a concrete input: assigning `[3, 8]` (size 2) into an
empty vector of capacity 0 with no copy throwing lands in the success arm of
the strong guarantee. -/
theorem c4_copy_assign_strong_witness :
    (0 : Nat) < 2
    ∧ ((∃ r, Vector.opAssignE (fun _ => false) (fun _ => false)
          (⟨[], 0⟩ : Vector Nat) ⟨[3, 8], 2⟩ = .ok r
          ∧ r.elems = [3, 8] ∧ r.Size = 2)
        ∨ Vector.opAssignE (fun _ => false) (fun _ => false)
          (⟨[], 0⟩ : Vector Nat) ⟨[3, 8], 2⟩ = .error ⟨[], 0⟩) :=
  ⟨by decide, c4_copy_assign_strong (fun _ => false) (fun _ => false)
    ⟨[], 0⟩ ⟨[3, 8], 2⟩ (by decide)⟩

/-- C2, evaluated at the failing input: a one-element vector `[5]` at full
capacity, `PushBack 7` taking the growth path with a copy-based relocation
whose copy of old element 0 throws.  The element already constructed into
slot 1 of the new buffer is counted constructed but never destroyed before
the new buffer is released (`constructedInNew = 1`, `destroyedInNew = 0`),
contradicting the claim that every element constructed into the new buffer
is destroyed; the original buffer is observed unchanged. -/
theorem c2_growth_throw_leak :
    ∃ g : GrowThrow Nat,
      Vector.pushBackGrowE false (fun i => decide (i = 0)) ⟨[5], 1⟩ 7 = .error g
      ∧ g.state = ⟨[5], 1⟩ ∧ g.constructedInNew = 1 ∧ g.destroyedInNew = 0 :=
  ⟨⟨⟨[5], 1⟩, 1, 0⟩, rfl, rfl, rfl, rfl⟩

theorem pushN_size (x : α) (n : Nat) : (pushN x n).Size = n := by
  induction n with
  | zero => rfl
  | succ n ih =>
    simp only [pushN, Vector.Size, pushBack_elems, List.length_append,
      List.length_singleton] at *
    omega

theorem pushN_cap (x : α) (n : Nat) :
    (pushN x n).cap = if n = 0 then 0 else 2 ^ Nat.clog 2 n := by
  induction n with
  | zero => rfl
  | succ n ih =>
    have hsize : (pushN x n).elems.length = n := pushN_size x n
    rw [if_neg (Nat.succ_ne_zero n)]
    show ((pushN x n).PushBack x).cap = 2 ^ Nat.clog 2 (n + 1)
    rw [pushBack_cap, hsize]
    by_cases hn0 : n = 0
    · subst hn0
      have h0 : (pushN x 0).cap = 0 := rfl
      rw [h0]
      rw [Nat.clog_of_right_le_one (le_refl 1)]
      simp
    · have hk : (pushN x n).cap = 2 ^ Nat.clog 2 n := by rw [ih, if_neg hn0]
      have hle : n ≤ 2 ^ Nat.clog 2 n := Nat.le_pow_clog (by norm_num) n
      rw [hk]
      by_cases heq : n = 2 ^ Nat.clog 2 n
      · rw [if_pos heq, if_neg hn0]
        have h1 : Nat.clog 2 (n + 1) ≤ Nat.clog 2 n + 1 := by
          rw [← Nat.le_pow_iff_clog_le (by norm_num)]
          rw [pow_succ]
          omega
        have h2 : Nat.clog 2 n + 1 ≤ Nat.clog 2 (n + 1) := by
          by_contra hcon
          have : n + 1 ≤ 2 ^ Nat.clog 2 n :=
            (Nat.le_pow_iff_clog_le (by norm_num)).2 (by omega)
          omega
        rw [le_antisymm h1 h2, pow_succ]
        omega
      · rw [if_neg heq]
        have h1 : Nat.clog 2 (n + 1) ≤ Nat.clog 2 n := by
          rw [← Nat.le_pow_iff_clog_le (by norm_num)]
          omega
        have h2 : Nat.clog 2 n ≤ Nat.clog 2 (n + 1) :=
          Nat.clog_mono_right 2 (Nat.le_succ n)
        rw [le_antisymm h1 h2]

/-- C5: starting from a default-constructed vector, the capacity after `n`
sequential appends is 0 for `n = 0` and the least power of two at least `n`
(the sequence 0, 1, 2, 4, 8, ...) otherwise; an append that finds
`Size() < Capacity()` leaves the capacity unchanged, and one that finds
`Size() == Capacity()` grows it to `max 1 (2 * Capacity())`. -/
theorem c5_growth_doubling (x : α) :
    ((pushN x 0).Capacity = 0
      ∧ ∀ n, 0 < n → (pushN x n).Capacity = 2 ^ Nat.clog 2 n)
    ∧ (∀ (v : Vector α) (y : α), v.Size < v.Capacity →
        (v.PushBack y).Capacity = v.Capacity)
    ∧ (∀ (v : Vector α) (y : α), v.Size = v.Capacity →
        (v.PushBack y).Capacity = max 1 (2 * v.Capacity)) := by
  refine ⟨⟨rfl, fun n hn => ?_⟩, fun v y h => ?_, fun v y h => ?_⟩
  · show (pushN x n).cap = _
    rw [pushN_cap, if_neg (by omega)]
  · show (v.PushBack y).cap = v.cap
    rw [pushBack_cap]
    simp only [Vector.Size, Vector.Capacity] at h
    rw [if_neg (by omega)]
  · show (v.PushBack y).cap = _
    rw [pushBack_cap]
    simp only [Vector.Size, Vector.Capacity] at h
    rw [if_pos h]
    by_cases h0 : v.elems.length = 0
    · rw [if_pos h0]
      simp only [Vector.Capacity]
      omega
    · rw [if_neg h0]
      simp only [Vector.Capacity]
      omega

/-- Witness for C5 at concrete inputs: four appends from empty give
capacity 4; an append with spare capacity keeps capacity 2; an append at
full capacity 2 doubles it. -/
theorem c5_growth_doubling_witness :
    (0 : Nat) < 4 ∧ (pushN (7 : Nat) 4).Capacity = 2 ^ Nat.clog 2 4
    ∧ (Vector.PushBack (⟨[1], 2⟩ : Vector Nat) 9).Capacity
        = (⟨[1], 2⟩ : Vector Nat).Capacity
    ∧ (Vector.PushBack (⟨[1, 2], 2⟩ : Vector Nat) 9).Capacity
        = max 1 (2 * (⟨[1, 2], 2⟩ : Vector Nat).Capacity) :=
  ⟨by decide, (c5_growth_doubling (7 : Nat)).1.2 4 (by decide),
   (c5_growth_doubling (7 : Nat)).2.1 ⟨[1], 2⟩ 9 (by decide),
   (c5_growth_doubling (7 : Nat)).2.2 ⟨[1, 2], 2⟩ 9 (by decide)⟩

theorem setFrom_length (l : List α) (dst src : Nat) :
    (setFrom l dst src).length = l.length := by
  unfold setFrom
  split <;> simp

theorem moveBackwardGo_length (l : List α) (last k : Nat) :
    (moveBackwardGo l last k).length = l.length := by
  induction k generalizing l last with
  | zero => rfl
  | succ k ih => rw [moveBackwardGo, ih, setFrom_length]

theorem moveBackwardGo_getElem (l : List α) (last k : Nat) (hk : k ≤ last)
    (hl : last < l.length) (j : Nat) :
    (moveBackwardGo l last k)[j]? =
      if last - k < j ∧ j ≤ last then l[j - 1]? else l[j]? := by
  induction k generalizing l last with
  | zero =>
    simp only [moveBackwardGo]
    rw [if_neg (by omega)]
  | succ k ih =>
    simp only [moveBackwardGo]
    have hlast1 : last - 1 < l.length := by omega
    obtain ⟨a, ha⟩ : ∃ a, l[last - 1]? = some a := ⟨_, List.getElem?_eq_getElem hlast1⟩
    have hsf : setFrom l last (last - 1) = l.set last a := by
      unfold setFrom
      rw [ha]
    rw [hsf, ih (l.set last a) (last - 1) (by omega) (by simp; omega)]
    by_cases hc : last - 1 - k < j ∧ j ≤ last - 1
    · rw [if_pos hc, List.getElem?_set_ne (by omega), if_pos (by omega)]
    · rw [if_neg hc]
      by_cases hj : j = last
      · subst hj
        rw [List.getElem?_set, if_pos rfl, if_pos hl, if_pos (by omega)]
        exact ha.symm
      · rw [List.getElem?_set_ne (fun hh => hj hh.symm), if_neg (by omega)]

theorem moveBackwardByOne_defined (l : List α) (first last : Nat) (h : first ≤ last) :
    moveBackwardByOne l first last = some (moveBackwardGo l last (last - first)) := by
  unfold moveBackwardByOne
  rw [if_pos h]

theorem emplace_shift (e : List α) (p : Nat) (x : α) (he : e ≠ []) (hp : p < e.length) :
    (moveBackwardGo (e ++ [(e.getLast?).getD x]) (e.length - 1) (e.length - 1 - p)).set p x
      = e.take p ++ x :: e.drop p := by
  have hlen : 0 < e.length := List.length_pos.mpr he
  obtain ⟨b, hb⟩ : ∃ b, e[e.length - 1]? = some b :=
    ⟨_, List.getElem?_eq_getElem (by omega)⟩
  have hlast : (e.getLast?).getD x = b := by
    rw [List.getLast?_eq_getElem?, hb]
    rfl
  have htl : (e.take p).length = p := by
    rw [List.length_take]
    omega
  apply List.ext_getElem?
  intro j
  have hmlen : (moveBackwardGo (e ++ [(e.getLast?).getD x]) (e.length - 1)
      (e.length - 1 - p)).length = e.length + 1 := by
    rw [moveBackwardGo_length]
    simp
  rw [List.getElem?_set]
  rw [moveBackwardGo_getElem _ (e.length - 1) (e.length - 1 - p) (by omega) (by simp; omega)]
  rw [show e.length - 1 - (e.length - 1 - p) = p from by omega]
  by_cases hj : p = j
  · subst hj
    rw [if_pos rfl, if_pos (by omega)]
    rw [List.getElem?_append_right htl.le, htl, Nat.sub_self]
    rw [List.getElem?_cons_zero]
  · rw [if_neg hj]
    rcases Nat.lt_trichotomy j p with hlt | heq | hgt
    · -- j below the insertion point
      rw [if_neg (by omega)]
      rw [List.getElem?_append_left (by omega)]
      rw [List.getElem?_append_left (by omega)]
      rw [List.getElem?_take, if_pos hlt]
    · exact absurd heq.symm hj
    · -- j above the insertion point
      obtain ⟨k, hk⟩ : ∃ k, j - p = k + 1 := ⟨j - p - 1, by omega⟩
      have hrhs : (List.take p e ++ x :: List.drop p e)[j]? = e[p + k]? := by
        rw [List.getElem?_append_right (by omega), htl, hk, List.getElem?_cons_succ,
          List.getElem?_drop]
      rw [hrhs]
      by_cases hje : j ≤ e.length - 1
      · rw [if_pos ⟨hgt, hje⟩]
        rw [List.getElem?_append_left (by omega)]
        rw [show p + k = j - 1 from by omega]
      · by_cases hj2 : j = e.length
        · -- j = size: the slot that received the moved last element
          rw [if_neg (by omega), hj2, List.getElem?_concat_length, hlast]
          rw [show p + k = e.length - 1 from by omega]
          exact hb.symm
        · -- j past the end of both sides
          rw [if_neg (by omega)]
          rw [List.getElem?_eq_none (by simp; omega)]
          rw [List.getElem?_eq_none (by omega)]

theorem emplace_defined (v : Vector α) (p : Nat) (x : α) (hp : p ≤ v.elems.length)
    (hdef : p < v.elems.length ∨ v.elems.length = v.cap ∨ v.elems.length = 0) :
    ∃ c, v.Emplace p x
      = some (⟨v.elems.take p ++ x :: v.elems.drop p, c⟩, p) := by
  unfold Vector.Emplace
  split
  · split
    · rename_i h0 hz
      have he : v.elems = [] := List.length_eq_zero.mp hz
      have hp0 : p = 0 := by omega
      exact ⟨(v.Reserve 1).cap, by simp [he, hp0, reserve_elems]⟩
    · exact ⟨v.elems.length * 2, by simp [Uninitialized_Move_Or_Copy_N]⟩
  · split
    · rename_i h1 hz
      have he : v.elems ≠ [] := by
        intro hcon
        rw [hcon] at hz
        exact hz rfl
      have hplt : p < v.elems.length := by
        rcases hdef with h | h | h
        · exact h
        · exact absurd h h1
        · exact absurd h hz
      refine ⟨v.cap, ?_⟩
      show Option.map
            (fun shifted : List α =>
              (({ elems := shifted.set p x, cap := v.cap } : Vector α), p))
            (moveBackwardByOne (v.elems ++ [(v.elems.getLast?).getD x]) p (v.elems.length - 1))
          = some (({ elems := v.elems.take p ++ x :: v.elems.drop p, cap := v.cap } : Vector α), p)
      rw [moveBackwardByOne_defined _ _ _ (by omega), Option.map_some']
      rw [emplace_shift v.elems p x he hplt]
    · rename_i h1 hz
      have hz0 : v.elems.length = 0 := by omega
      have he : v.elems = [] := List.length_eq_zero.mp hz0
      have hp0 : p = 0 := by omega
      exact ⟨v.cap, by simp [he, hp0]⟩

/-- C1, evaluated at the very input the claim highlights: a non-empty
vector with spare capacity (contents `[5]`, capacity 2) and position
`end()` (`pos_num = 1 = size_`).  There the non-growth branch calls
`std::move_backward(begin() + size_, end() - 1, end())` with `first` one
past `last` — an invalid range, undefined behavior — so the code does not
produce the insertion result `[5, 7]` the claim promises (the model yields
`none` instead of a defined state).  For every other admissible position
(`p < Size()`, or any `p ≤ Size()` on the growth and empty paths) the
insertion does behave as claimed; see `emplace_defined`. -/
theorem c1_emplace_end_undefined :
    Vector.Emplace (⟨[5], 2⟩ : Vector Nat) 1 7 = none := rfl

end AdvancedVector
